import Mathlib

/-!
Verification of the data-normalization and derived-metrics pipeline of
src/hyperliquid_staking_dashboard.py, as a shallow embedding in Lean.

Python/JSON values are modelled by the inductive PyVal; Python floats are
modelled as exact rationals; a coercion that raises (float(x), int(x)) is
modelled as an Option returning none; the float value nan is modelled by
the none case of PFloat.
-/

set_option maxRecDepth 4096

set_option allowUnsafeReducibility true in
attribute [semireducible] Rat.add Rat.mul Rat.inv Rat.div Rat.sub Rat.neg

/-- Model of a Python/JSON value as manipulated by the dashboard.
Tuples are modelled as lists (JSON has no tuples, and the code treats the
two alike in the one place both are accepted). -/
inductive PyVal where
  | none
  | bool (b : Bool)
  | int (n : ℤ)
  | float (q : ℚ)
  | str (s : String)
  | list (xs : List PyVal)
  | dict (xs : List (String × PyVal))

mutual
/-- Boolean equality on the value model. -/
def pyBeq : PyVal → PyVal → Bool
  | .none, .none => true
  | .bool a, .bool b => a == b
  | .int a, .int b => a == b
  | .float a, .float b => a == b
  | .str a, .str b => a == b
  | .list a, .list b => pyBeqList a b
  | .dict a, .dict b => pyBeqDict a b
  | _, _ => false

/-- Boolean equality on lists of values. -/
def pyBeqList : List PyVal → List PyVal → Bool
  | [], [] => true
  | a :: as, b :: bs => pyBeq a b && pyBeqList as bs
  | _, _ => false

/-- Boolean equality on dict entry lists. -/
def pyBeqDict : List (String × PyVal) → List (String × PyVal) → Bool
  | [], [] => true
  | (k, v) :: as, (k2, v2) :: bs => k == k2 && pyBeq v v2 && pyBeqDict as bs
  | _, _ => false
end

mutual
theorem pyBeq_iff : ∀ a b : PyVal, pyBeq a b = true ↔ a = b
  | .none, b => by cases b <;> simp [pyBeq]
  | .bool a, b => by cases b <;> simp [pyBeq]
  | .int a, b => by cases b <;> simp [pyBeq]
  | .float a, b => by cases b <;> simp [pyBeq]
  | .str a, b => by cases b <;> simp [pyBeq]
  | .list a, b => by
    cases b <;> simp [pyBeq]
    exact pyBeqList_iff a _
  | .dict a, b => by
    cases b <;> simp [pyBeq]
    exact pyBeqDict_iff a _

theorem pyBeqList_iff : ∀ a b : List PyVal, pyBeqList a b = true ↔ a = b
  | [], b => by cases b <;> simp [pyBeqList]
  | a :: as, b => by
    cases b with
    | nil => simp [pyBeqList]
    | cons c cs => simp [pyBeqList, pyBeq_iff a c, pyBeqList_iff as cs]

theorem pyBeqDict_iff : ∀ a b : List (String × PyVal), pyBeqDict a b = true ↔ a = b
  | [], b => by cases b <;> simp [pyBeqDict]
  | (k, v) :: as, b => by
    cases b with
    | nil => simp [pyBeqDict]
    | cons c cs =>
      obtain ⟨k2, v2⟩ := c
      simp [pyBeqDict, pyBeq_iff v v2, pyBeqDict_iff as cs, and_assoc]
end

instance : DecidableEq PyVal := fun a b => decidable_of_iff _ (pyBeq_iff a b)

/-- Python truthiness of a value. -/
def truthy : PyVal → Bool
  | .none => false
  | .bool b => b
  | .int n => n != 0
  | .float q => q != 0
  | .str s => s != ""
  | .list xs => !xs.isEmpty
  | .dict xs => !xs.isEmpty

/-- Decimal digits of a natural number, least significant first.  The fuel
argument makes the recursion structural; any fuel at least n suffices. -/
def digitsRev : ℕ → ℕ → List ℕ
  | 0, _ => []
  | fuel + 1, n => if n = 0 then [] else n % 10 :: digitsRev fuel (n / 10)

/-- The character for a decimal digit. -/
def digitChar (d : ℕ) : Char := Char.ofNat (48 + d)

/-- Decimal rendering of a natural number (models Python str on naturals). -/
def natRepr (n : ℕ) : String :=
  if n = 0 then "0" else String.mk ((digitsRev n n).reverse.map digitChar)

/-- Numeric value of a decimal digit character, none otherwise. -/
def digitVal? (c : Char) : Option ℕ :=
  if 48 ≤ c.toNat ∧ c.toNat ≤ 57 then some (c.toNat - 48) else none

/-- Fold a list of decimal digit characters onto an accumulator; none if a
non-digit is met. -/
def parseNatFrom (acc : ℕ) : List Char → Option ℕ
  | [] => some acc
  | c :: cs =>
    match digitVal? c with
    | some d => parseNatFrom (acc * 10 + d) cs
    | Option.none => Option.none

/-- Parse a nonempty all-digit character list as a natural number. -/
def parseNatDigits (cs : List Char) : Option ℕ :=
  if cs.isEmpty then none else parseNatFrom 0 cs

/-- Split a character list at its first dot: the part before, and (when a
dot occurs) the part after. -/
def splitDot : List Char → List Char × Option (List Char)
  | [] => ([], Option.none)
  | c :: cs =>
    if c = '.' then ([], some cs)
    else
      let r := splitDot cs
      (c :: r.1, r.2)

/-- The optional leading sign of a float literal: the sign factor and the
remaining characters. -/
def parseSigned (cs : List Char) : ℚ × List Char :=
  match cs with
  | c :: rest => if c = '-' then (-1, rest) else if c = '+' then (1, rest) else (1, cs)
  | [] => (1, cs)

/-- The unsigned part of a float literal: digits, optional dot and
fractional digits, at least one digit in total. -/
def parseUnsigned? (cs : List Char) : Option ℚ :=
  match splitDot cs with
  | (ip, Option.none) =>
    if ip.isEmpty then Option.none
    else (parseNatFrom 0 ip).map (fun n => (n : ℚ))
  | (ip, some fp) =>
    if ip.isEmpty ∧ fp.isEmpty then Option.none
    else
      match parseNatFrom 0 ip, parseNatFrom 0 fp with
      | some n, some f => some ((n : ℚ) + (f : ℚ) / 10 ^ fp.length)
      | _, _ => Option.none

/-- Models Python float(s) on plain decimal literals: optional sign, digits,
optional dot and fractional digits, at least one digit in total.  Exponents,
underscores, whitespace and the special words inf/nan do not occur in this
pipeline and are not modelled (they parse to none). -/
def parseFloat? (s : String) : Option ℚ :=
  (parseUnsigned? (parseSigned s.data).2).map (fun v => (parseSigned s.data).1 * v)

/-- Parse a Python int literal: optional sign and a nonempty digit string. -/
def parseIntLit? (s : String) : Option ℤ :=
  match s.data with
  | [] => Option.none
  | c :: rest =>
    if c = '-' then (parseNatDigits rest).map (fun n => -(n : ℤ))
    else if c = '+' then (parseNatDigits rest).map (fun n => (n : ℤ))
    else (parseNatDigits (c :: rest)).map (fun n => (n : ℤ))

/-- Models Python float(x); none models a raised TypeError/ValueError. -/
def pyFloat? : PyVal → Option ℚ
  | .bool b => some (if b then 1 else 0)
  | .int n => some (n : ℚ)
  | .float q => some q
  | .str s => parseFloat? s
  | _ => Option.none

/-- Models Python int(x); none models a raised TypeError/ValueError.
A float truncates toward zero. -/
def pyInt? : PyVal → Option ℤ
  | .bool b => some (if b then 1 else 0)
  | .int n => some n
  | .float q => some (if q < 0 then ⌈q⌉ else ⌊q⌋)
  | .str s => parseIntLit? s
  | _ => Option.none

/-- Nearest integer with ties to even: the rounding used by Python fixed
point formatting, applied here to the exact rational model. -/
def roundHalfEven (q : ℚ) : ℤ :=
  if q - (⌊q⌋ : ℚ) < 1 / 2 then ⌊q⌋
  else if 1 / 2 < q - (⌊q⌋ : ℚ) then ⌊q⌋ + 1
  else if ⌊q⌋ % 2 = 0 then ⌊q⌋ else ⌊q⌋ + 1

/-- The two zero-padded fractional digits of the fixed-point format; at
its use site the argument is below one hundred. -/
def pad2 (m : ℕ) : String := String.mk [digitChar (m / 10 % 10), digitChar (m % 10)]

/-- Models the Python format specification with two decimal places applied
to the exact rational value v: sign, integer part, dot, two fractional
digits of the half-even rounded value. -/
def fmtFixed2 (v : ℚ) : String :=
  String.mk ((if roundHalfEven (v * 100) < 0 then ['-'] else []) ++
    (natRepr ((roundHalfEven (v * 100)).natAbs / 100)).data ++
    '.' :: (pad2 ((roundHalfEven (v * 100)).natAbs % 100)).data)

/-- Digits of the fractional part of a nonnegative rational below one,
fuel-bounded; every float reaching this code is a short decimal. -/
def fracDigits : ℕ → ℚ → List ℕ
  | 0, _ => []
  | fuel + 1, q =>
    if q = 0 then []
    else (⌊q * 10⌋).toNat :: fracDigits fuel (q * 10 - (⌊q * 10⌋ : ℚ))

/-- Models Python repr of a float as the exact decimal expansion of the
rational model (up to 64 fractional digits, enough for every double). -/
def qRepr (q : ℚ) : String :=
  let a := |q|
  let ds := fracDigits 64 (a - (⌊a⌋ : ℚ))
  (if q < 0 then "-" else "") ++ natRepr (⌊a⌋).toNat ++ "." ++
    (if ds.isEmpty then "0" else String.mk (ds.map digitChar))

mutual
/-- Models Python repr of a value in this model. -/
def pyRepr : PyVal → String
  | .none => "None"
  | .bool b => if b then "True" else "False"
  | .int n => (if n < 0 then "-" else "") ++ natRepr n.natAbs
  | .float q => qRepr q
  | .str s => "\x27" ++ s ++ "\x27"
  | .list xs => "[" ++ pyReprList xs ++ "]"
  | .dict xs => "\x7b" ++ pyReprDict xs ++ "\x7d"

/-- repr of list elements, comma separated. -/
def pyReprList : List PyVal → String
  | [] => ""
  | [x] => pyRepr x
  | x :: xs => pyRepr x ++ ", " ++ pyReprList xs

/-- repr of dict entries, comma separated. -/
def pyReprDict : List (String × PyVal) → String
  | [] => ""
  | [(k, v)] => "\x27" ++ k ++ "\x27: " ++ pyRepr v
  | (k, v) :: xs => "\x27" ++ k ++ "\x27: " ++ pyRepr v ++ ", " ++ pyReprDict xs
end

/-- Models Python str(x): the identity on strings, repr elsewhere. -/
def pyStr : PyVal → String
  | .str s => s
  | v => pyRepr v

/-- NaN-carrying float model: none stands for the float value nan. -/
abbrev PFloat := Option ℚ

/-- Embeds fmt_pct: format x as a percentage with two decimals, falling
back to str(x) when float conversion fails. -/
def fmt_pct (x : PyVal) : String :=
  match pyFloat? x with
  | some v => fmtFixed2 (v * 100) ++ "%"
  | Option.none => pyStr x

/-- Embeds fmt_rate_str (same computation as fmt_pct, used for commission). -/
def fmt_rate_str (x : PyVal) : String :=
  match pyFloat? x with
  | some v => fmtFixed2 (v * 100) ++ "%"
  | Option.none => pyStr x

/-- Removing every percent character: the effect of the Python replace of
the one-character pattern with the empty string. -/
def stripPercent (s : String) : String := String.mk (s.data.filter (· != '%'))

/-- Embeds pct_to_float_0_100 at its call-site type: its argument is always
the string produced by fmt_pct, and Python str on a string is the identity.
The except branch returns nan, the none of PFloat. -/
def pct_to_float_0_100 (pct_str : String) : PFloat :=
  parseFloat? (stripPercent pct_str)

example : parseFloat? "0.05" = some (1 / 20) := by decide
example : parseFloat? "abc" = none := by decide
example : parseFloat? "5" = some 5 := by decide
example : fmt_pct (.float (1 / 2)) = "50.00%" := by decide
example : fmt_pct (.str "5%") = "5%" := by decide
example : pct_to_float_0_100 "5%" = some 5 := by decide

/-- Lookup in a Python dict modelled as an entry list with unique keys
(first occurrence wins, matching an actual dict). -/
def dictFind? (m : List (String × PyVal)) (k : String) : Option PyVal :=
  match m with
  | [] => Option.none
  | (k2, v) :: rest => if k2 = k then some v else dictFind? rest k

/-- Models Python dict.get(k, d) on a record. -/
def dictGetD (m : List (String × PyVal)) (k : String) (d : PyVal) : PyVal :=
  (dictFind? m k).getD d

/-- Lookup in the stats mapping built by norm_stats, whose keys are
arbitrary values. -/
def assocFind? (out : List (PyVal × PyVal)) (k : PyVal) : Option PyVal :=
  match out with
  | [] => Option.none
  | (k2, v) :: rest => if k2 = k then some v else assocFind? rest k

/-- Models the dict assignment in the norm_stats loop: update in place when
the key is present (Python dicts keep insertion order), append otherwise. -/
def assocSet (out : List (PyVal × PyVal)) (k v : PyVal) : List (PyVal × PyVal) :=
  match out with
  | [] => [(k, v)]
  | (k2, v2) :: rest => if k2 = k then (k2, v) :: rest else (k2, v2) :: assocSet rest k v

/-- The key and value of a stats entry that is a two-element list or tuple
(tuples are modelled as lists); none for every other entry, which the
norm_stats loop skips. -/
def pairKV? : PyVal → Option (PyVal × PyVal)
  | .list [k, v] => some (k, v)
  | _ => Option.none

/-- The loop of norm_stats over the remaining entries of the stats list. -/
def normStatsLoop (out : List (PyVal × PyVal)) : List PyVal → List (PyVal × PyVal)
  | [] => out
  | pair :: rest =>
    match pairKV? pair with
    | some (k, v) => normStatsLoop (assocSet out k v) rest
    | Option.none => normStatsLoop out rest

/-- The value of the last well-formed pair carrying the given key, the
last-value-wins reading of the stats list. -/
def lastVal? (k : PyVal) : List PyVal → Option PyVal
  | [] => Option.none
  | pair :: rest =>
    match lastVal? k rest with
    | some v => some v
    | Option.none =>
      match pairKV? pair with
      | some (k2, v) => if k2 = k then some v else Option.none
      | Option.none => Option.none

/-- Embeds norm_stats: a list of two-element pairs is linearized into a
mapping; any other input, and any entry that is not a two-element list or
tuple, contributes nothing (tuples are modelled as lists). -/
def norm_stats (stats_list : PyVal) : List (PyVal × PyVal) :=
  match stats_list with
  | .list xs => normStatsLoop [] xs
  | _ => []

/-- The per-window object of the normalization loop: norm_stats applied to
the stats field, then the lookup stats.get(w, empty dict). -/
def windowLookup (statsField : PyVal) (w : String) : PyVal :=
  (assocFind? (norm_stats statsField) (.str w)).getD (.dict [])

/-- Embeds the commission_raw column: float of v.get("commission", 0.0);
none models the exception float raises on a non-coercible value. -/
def commission_raw? (v : List (String × PyVal)) : Option ℚ :=
  pyFloat? (dictGetD v "commission" (.float 0))

/-- Embeds the stake column: int of v.get("stake", 0); none models the
exception int raises on a non-coercible value. -/
def stakeField? (v : List (String × PyVal)) : Option ℤ :=
  pyInt? (dictGetD v "stake" (.int 0))

/-- Embeds the nRecentBlocks column: int of v.get("nRecentBlocks", 0). -/
def nRecentBlocksField? (v : List (String × PyVal)) : Option ℤ :=
  pyInt? (dictGetD v "nRecentBlocks" (.int 0))

/-- Embeds the uptime display column for one window object: fmt_pct of
window.get("uptimeFraction", 0). -/
def uptimeStrField (day : List (String × PyVal)) : String :=
  fmt_pct (dictGetD day "uptimeFraction" (.int 0))

/-- Embeds the numeric uptime helper column: pct_to_float_0_100 applied to
the display string recomputed from the same source value. -/
def uptimeNumField (day : List (String × PyVal)) : PFloat :=
  pct_to_float_0_100 (fmt_pct (dictGetD day "uptimeFraction" (.int 0)))

/-- Embeds the APR display column for one window object. -/
def aprStrField (day : List (String × PyVal)) : String :=
  fmt_pct (dictGetD day "predictedApr" (.int 0))

/-- Embeds the numeric APR helper column. -/
def aprNumField (day : List (String × PyVal)) : PFloat :=
  pct_to_float_0_100 (fmt_pct (dictGetD day "predictedApr" (.int 0)))

/-- ASCII lowercasing, the effect of Python str.lower() on the hex
addresses used as mapping keys here. -/
def lowerChar (c : Char) : Char :=
  if 65 ≤ c.toNat ∧ c.toNat ≤ 90 then Char.ofNat (c.toNat + 32) else c

/-- Lowercase a whole address string. -/
def lowerStr (s : String) : String := String.mk (s.data.map lowerChar)

/-- Embeds the foundationDelegation column for one row: the uploaded
mapping (keyed by lowercased validator address) looked up at the row's
lowercased address, missing keys filled with zero. -/
def rowDelegation (dmap : List (String × ℚ)) (addr : String) : ℚ :=
  ((dmap.lookup (lowerStr addr)).getD 0)

/-- Embeds stake_adjusted_column for one row: with the subtract toggle on,
stake minus the delegation clipped at zero; otherwise the raw stake. -/
def stake_adjusted (stake : ℤ) (deleg : ℚ) (subtractEnabled : Bool) : ℚ :=
  if subtractEnabled then max ((stake : ℚ) - deleg) 0 else (stake : ℚ)

/-- Embeds the reward computation of the What If I Staked calculator:
effective APR nets the commission off the gross APR; rewards are simple or
daily compounded; the total adds the principal back. -/
def project (amount : ℚ) (days : ℕ) (apr_dec commission_dec : ℚ) (compound : Bool) :
    ℚ × ℚ × ℚ :=
  let effective_apr := apr_dec * (1 - commission_dec)
  let rewards :=
    if compound then amount * ((1 + effective_apr / 365) ^ days - 1)
    else amount * effective_apr * ((days : ℚ) / 365)
  (effective_apr, rewards, amount + rewards)

/-- Modelled from the spec text of the reward projection contract, for the
refinement comparison with the code. -/
def projectSpec (principal : ℚ) (days : ℕ) (grossAprFraction commissionFraction : ℚ)
    (compound : Bool) : ℚ × ℚ × ℚ :=
  let effectiveApr := grossAprFraction * (1 - commissionFraction)
  let rewards :=
    if compound then principal * ((1 + effectiveApr / 365) ^ days - 1)
    else principal * effectiveApr * ((days : ℚ) / 365)
  (effectiveApr, rewards, principal + rewards)

/-- The key priority order tried on a withdrawals payload. -/
def withdrawKeys : List String :=
  ["withdrawals", "items", "pending", "rows", "pendingWithdrawals"]

/-- The loop of fetch_pending_withdrawals: the first key of the priority
order present in the mapping with a list value; a present key holding a
non-list does not stop the search. -/
def firstListUnder (m : List (String × PyVal)) : List String → Option (List PyVal)
  | [] => Option.none
  | k :: ks =>
    match dictFind? m k with
    | some (.list xs) => some xs
    | _ => firstListUnder m ks

/-- Embeds fetch_pending_withdrawals after the fetch: the argument none
models a raised fetch (the except branch); a dict is searched for the
first known key holding a list; a bare list is returned as is; any other
shape yields None. -/
def fetch_pending_withdrawals (resp : Option PyVal) : Option (List PyVal) :=
  match resp with
  | Option.none => Option.none
  | some data =>
    match data with
    | .dict m => firstListUnder m withdrawKeys
    | .list xs => some xs
    | _ => Option.none

/-- Python x or y: x when truthy, else y. -/
def pyOr (a b : PyVal) : PyVal := if truthy a then a else b

/-- Models item.get(k): the value when present, else None. -/
def itemGet (item : List (String × PyVal)) (k : String) : PyVal :=
  dictGetD item k .none

/-- The amt expression of the withdrawal normalization loop. -/
def amtResolved (item : List (String × PyVal)) : PyVal :=
  pyOr (itemGet item "amount")
    (pyOr (itemGet item "wei") (pyOr (itemGet item "value") (itemGet item "qty")))

/-- The req expression of the withdrawal normalization loop. -/
def reqResolved (item : List (String × PyVal)) : PyVal :=
  pyOr (itemGet item "requestedAt")
    (pyOr (itemGet item "time") (pyOr (itemGet item "requested") (itemGet item "createdAt")))

/-- The eli expression of the withdrawal normalization loop. -/
def eliResolved (item : List (String × PyVal)) : PyVal :=
  pyOr (itemGet item "eligibleAt")
    (pyOr (itemGet item "unlockAt") (itemGet item "availableAt"))

/-- The txh expression of the withdrawal normalization loop. -/
def txhResolved (item : List (String × PyVal)) : PyVal :=
  pyOr (itemGet item "txHash") (pyOr (itemGet item "hash") (itemGet item "tx"))

/-- The Amount cell: float(amt) when the coercion succeeds, else str(amt). -/
def amountCell (item : List (String × PyVal)) : PyVal :=
  match pyFloat? (amtResolved item) with
  | some q => .float q
  | Option.none => .str (pyStr (amtResolved item))

/-- Modelled from the spec words for the comparison: the first alias
present in the item, regardless of the value's truthiness. -/
def firstPresent (item : List (String × PyVal)) : List String → Option PyVal
  | [] => Option.none
  | k :: ks =>
    match dictFind? item k with
    | some v => some v
    | Option.none => firstPresent item ks

/-- What the or-chain computes: the first truthy alias value, else the
last alias's looked-up value (None when that key is absent too). -/
def firstTruthy (item : List (String × PyVal)) : List String → PyVal
  | [] => .none
  | [k] => itemGet item k
  | k :: ks => pyOr (itemGet item k) (firstTruthy item ks)

/-- One row of the filtered view, carrying the numeric columns the filter
and sort code reads. -/
structure SRow where
  name : String
  validator : String
  isActive : Bool
  isJailed : Bool
  commission_raw : ℚ
  stake_display : ℚ
  apr_day_num : ℚ
  apr_week_num : ℚ
  apr_month_num : ℚ
  uptime_day_num : ℚ
  uptime_week_num : ℚ
  uptime_month_num : ℚ
  nRecentBlocks : ℤ
  deriving DecidableEq

/-- The selectable sort keys of the Filters and Sort panel. -/
inductive SortKey where
  | stake
  | apr_day
  | apr_week
  | apr_month
  | uptime_day
  | uptime_week
  | uptime_month
  | commission
  | nRecentBlocks
  deriving DecidableEq

/-- The numeric column each sort key reads: the sort_map table. -/
def sortField : SortKey → SRow → ℚ
  | .stake => fun r => r.stake_display
  | .apr_day => fun r => r.apr_day_num
  | .apr_week => fun r => r.apr_week_num
  | .apr_month => fun r => r.apr_month_num
  | .uptime_day => fun r => r.uptime_day_num
  | .uptime_week => fun r => r.uptime_week_num
  | .uptime_month => fun r => r.uptime_month_num
  | .commission => fun r => r.commission_raw
  | .nRecentBlocks => fun r => (r.nRecentBlocks : ℚ)

/-- The ascending flag of the sort_map table: ascending only for
commission. -/
def sortAscending : SortKey → Bool
  | .commission => true
  | _ => false

/-- The boolean comparison handed to the stable sort: at most on the
column for an ascending key, at least for a descending one. -/
def sortLE (k : SortKey) (a b : SRow) : Bool :=
  if sortAscending k then decide (sortField k a ≤ sortField k b)
  else decide (sortField k b ≤ sortField k a)

/-- Embeds view.sort_values(column, ascending, kind mergesort): a stable
merge sort on the mapped column. -/
def sortView (k : SortKey) (rows : List SRow) : List SRow :=
  rows.mergeSort (sortLE k)

/-- The three positions of the Active filter select box. -/
inductive ActiveFilter where
  | all
  | onlyActive
  | onlyInactive
  deriving DecidableEq

/-- Embeds the active-state filter branch of the view pipeline, applied to
a fresh copy of the base collection on every recomputation. -/
def applyActiveFilter : ActiveFilter → List SRow → List SRow
  | .all, v => v
  | .onlyActive, v => v.filter (fun r => r.isActive == true)
  | .onlyInactive, v => v.filter (fun r => r.isActive == false)

example : norm_stats (.list [.list [.str "day", .int 1], .list [.str "day", .int 2]])
    = [(.str "day", .int 2)] := by decide
example : norm_stats (.dict [("day", .int 1)]) = [] := by decide
example : fetch_pending_withdrawals (some (.dict [("unknownKey", .list [])])) = none := by
  decide
example : fetch_pending_withdrawals (some (.dict [("items", .list [.int 3])]))
    = some [.int 3] := by decide
example : amtResolved [("amount", .int 0), ("wei", .int 5)] = .int 5 := by decide

theorem digitsRev_lt_ten : ∀ fuel n, ∀ d ∈ digitsRev fuel n, d < 10
  | 0, n => by simp [digitsRev]
  | fuel + 1, n => by
    intro d hd
    rw [digitsRev] at hd
    split at hd
    · exact absurd hd (List.not_mem_nil d)
    · rcases List.mem_cons.mp hd with h | h
      · subst h; exact Nat.mod_lt _ (by norm_num)
      · exact digitsRev_lt_ten fuel (n / 10) d h

theorem ofDigits_digitsRev : ∀ fuel n, n ≤ fuel → Nat.ofDigits 10 (digitsRev fuel n) = n
  | 0, n, h => by
    rw [digitsRev, Nat.ofDigits_nil]; omega
  | fuel + 1, n, h => by
    rw [digitsRev]
    split
    · rw [Nat.ofDigits_nil]; omega
    · rw [Nat.ofDigits_cons, ofDigits_digitsRev fuel (n / 10) (by omega)]
      omega

theorem digitVal?_digitChar (d : ℕ) (h : d < 10) : digitVal? (digitChar d) = some d := by
  interval_cases d <;> decide

theorem digitChar_toNat (d : ℕ) (h : d < 10) : (digitChar d).toNat = 48 + d := by
  interval_cases d <;> decide

theorem parseNatFrom_digits :
    ∀ (D : List ℕ), (∀ d ∈ D, d < 10) → ∀ acc : ℕ,
      parseNatFrom acc (D.map digitChar) =
        some (acc * 10 ^ D.length + Nat.ofDigits 10 D.reverse)
  | [], _, acc => by simp [parseNatFrom, Nat.ofDigits_nil]
  | d :: D, h, acc => by
    have hd : d < 10 := h d (List.mem_cons_self _ _)
    rw [List.map_cons, parseNatFrom, digitVal?_digitChar d hd]
    show parseNatFrom (acc * 10 + d) (D.map digitChar) =
      some (acc * 10 ^ (d :: D).length + Nat.ofDigits 10 (d :: D).reverse)
    rw [parseNatFrom_digits D (fun x hx => h x (List.mem_cons_of_mem _ hx)) (acc * 10 + d)]
    rw [List.reverse_cons, Nat.ofDigits_append, Nat.ofDigits_cons, Nat.ofDigits_nil]
    simp only [Nat.cast_id, List.length_reverse, List.length_cons, Option.some.injEq]
    ring

theorem parseNat_natRepr (n : ℕ) : parseNatFrom 0 (natRepr n).data = some n := by
  rw [natRepr]
  split
  · subst n; decide
  · show parseNatFrom 0 ((digitsRev n n).reverse.map digitChar) = some n
    rw [parseNatFrom_digits _ (fun d hd => digitsRev_lt_ten n n d (List.mem_reverse.mp hd)) 0]
    simp [List.reverse_reverse, ofDigits_digitsRev n n le_rfl]

theorem natRepr_bounds (n : ℕ) : ∀ c ∈ (natRepr n).data, 48 ≤ c.toNat ∧ c.toNat ≤ 57 := by
  rw [natRepr]
  split
  · intro c hc
    have h0 : ("0" : String).data = ['0'] := rfl
    rw [h0] at hc
    have hc0 : c = '0' := by simpa using hc
    subst hc0; decide
  · intro c hc
    show 48 ≤ c.toNat ∧ c.toNat ≤ 57
    have : ∃ d, d ∈ (digitsRev n n).reverse ∧ digitChar d = c := by
      simpa using List.mem_map.mp hc
    obtain ⟨d, hd, rfl⟩ := this
    have hlt : d < 10 := digitsRev_lt_ten n n d (List.mem_reverse.mp hd)
    rw [digitChar_toNat d hlt]
    omega

theorem natRepr_ne_nil (n : ℕ) : (natRepr n).data ≠ [] := by
  rw [natRepr]
  split
  · decide
  · show (digitsRev n n).reverse.map digitChar ≠ []
    rename_i h
    cases n with
    | zero => exact absurd rfl h
    | succ m =>
      rw [digitsRev]
      simp [h]

theorem pad2_bounds (m : ℕ) : ∀ c ∈ (pad2 m).data, 48 ≤ c.toNat ∧ c.toNat ≤ 57 := by
  intro c hc
  have h1 : m / 10 % 10 < 10 := Nat.mod_lt _ (by norm_num)
  have h2 : m % 10 < 10 := Nat.mod_lt _ (by norm_num)
  have hd : (pad2 m).data = [digitChar (m / 10 % 10), digitChar (m % 10)] := rfl
  rw [hd] at hc
  rcases List.mem_cons.mp hc with rfl | hc2
  · rw [digitChar_toNat _ h1]; omega
  · rcases List.mem_cons.mp hc2 with rfl | hc3
    · rw [digitChar_toNat _ h2]; omega
    · exact absurd hc3 (List.not_mem_nil c)

theorem parseNat_pad2 (m : ℕ) (h : m < 100) : parseNatFrom 0 (pad2 m).data = some m := by
  have hd : (pad2 m).data = List.map digitChar [m / 10 % 10, m % 10] := rfl
  have hlt : ∀ d ∈ [m / 10 % 10, m % 10], d < 10 := by
    intro d hd2
    rcases List.mem_cons.mp hd2 with rfl | hd3
    · omega
    · rcases List.mem_cons.mp hd3 with rfl | hd4
      · omega
      · exact absurd hd4 (List.not_mem_nil d)
  rw [hd, parseNatFrom_digits [m / 10 % 10, m % 10] hlt 0]
  congr 1
  rw [show ([m / 10 % 10, m % 10]).reverse = [m % 10, m / 10 % 10] from rfl]
  rw [Nat.ofDigits_cons, Nat.ofDigits_cons, Nat.ofDigits_nil]
  omega

theorem splitDot_append : ∀ (xs ys : List Char), '.' ∉ xs →
    splitDot (xs ++ '.' :: ys) = (xs, some ys)
  | [], ys, _ => by simp [splitDot]
  | x :: xs, ys, h => by
    have hx : ¬x = '.' := fun e => h (by simp [e])
    have hxs : '.' ∉ xs := fun e => h (List.mem_cons_of_mem _ e)
    rw [List.cons_append, splitDot]
    simp only [hx, if_false, splitDot_append xs ys hxs]

theorem parseSigned_of_digit (c : Char) (rest : List Char)
    (hc : 48 ≤ c.toNat ∧ c.toNat ≤ 57) :
    parseSigned (c :: rest) = (1, c :: rest) := by
  have hcm : ¬c = '-' := by
    intro e; rw [e] at hc; revert hc; decide
  have hcp : ¬c = '+' := by
    intro e; rw [e] at hc; revert hc; decide
  rw [parseSigned, if_neg hcm, if_neg hcp]

theorem parseFloat?_digit_dot (σ φ : List Char) (x y : ℕ)
    (hσ : σ ≠ []) (hb : ∀ c ∈ σ, 48 ≤ c.toNat ∧ c.toNat ≤ 57)
    (hpx : parseNatFrom 0 σ = some x) (hpy : parseNatFrom 0 φ = some y) :
    parseFloat? (String.mk (σ ++ '.' :: φ)) = some ((x : ℚ) + (y : ℚ) / 10 ^ φ.length) := by
  obtain ⟨c, σ2, rfl⟩ : ∃ c σ2, σ = c :: σ2 := by
    cases σ with
    | nil => exact absurd rfl hσ
    | cons c σ2 => exact ⟨c, σ2, rfl⟩
  have hdot : '.' ∉ c :: σ2 := by
    intro e
    have := hb '.' e
    revert this; decide
  have hsd : splitDot (c :: (σ2 ++ '.' :: φ)) = (c :: σ2, some φ) := by
    rw [← List.cons_append]
    exact splitDot_append _ _ hdot
  have hdata : (String.mk ((c :: σ2) ++ '.' :: φ)).data = c :: (σ2 ++ '.' :: φ) := rfl
  rw [parseFloat?, hdata, parseSigned_of_digit c _ (hb c (List.mem_cons_self _ _))]
  simp [parseUnsigned?, hsd, hpx, hpy]

theorem stripPercent_append_pct (s : String) (h : ∀ c ∈ s.data, ¬c = '%') :
    stripPercent (s ++ "%") = s := by
  have hp : ("%" : String).data = ['%'] := rfl
  rw [stripPercent, String.data_append, hp]
  rw [List.filter_append]
  have h1 : s.data.filter (fun c => c != '%') = s.data :=
    List.filter_eq_self.mpr (fun c hc => by simpa using h c hc)
  have h2 : ['%'].filter (fun c => c != '%') = [] := by decide
  rw [h1, h2, List.append_nil]

theorem fmtFixed2_no_pct (v : ℚ) : ∀ c ∈ (fmtFixed2 v).data, ¬c = '%' := by
  intro c hc
  rw [fmtFixed2] at hc
  show ¬c = '%'
  rcases List.mem_append.mp hc with hc | hc
  · rcases List.mem_append.mp hc with hc | hc
    · split at hc
      · simp at hc; subst hc; decide
      · simp at hc
    · have := natRepr_bounds _ c hc
      intro e; rw [e] at this; revert this; decide
  · rcases List.mem_cons.mp hc with hc | hc
    · subst hc; decide
    · have := pad2_bounds _ c hc
      intro e; rw [e] at this; revert this; decide

theorem roundHalfEven_nonneg (q : ℚ) (h : 0 ≤ q) : 0 ≤ roundHalfEven q := by
  have hf : 0 ≤ ⌊q⌋ := Int.floor_nonneg.mpr h
  rw [roundHalfEven]
  split
  · exact hf
  · split
    · omega
    · split <;> omega

theorem parseFloat_fmtFixed2 (v : ℚ) (h : 0 ≤ roundHalfEven (v * 100)) :
    parseFloat? (fmtFixed2 v) = some ((roundHalfEven (v * 100) : ℚ) / 100) := by
  rw [fmtFixed2]
  have hneg : ¬roundHalfEven (v * 100) < 0 := not_lt.mpr h
  rw [if_neg hneg]
  set a := (roundHalfEven (v * 100)).natAbs with ha
  rw [List.nil_append]
  have hlen : (pad2 (a % 100)).data.length = 2 := rfl
  rw [parseFloat?_digit_dot _ _ (a / 100) (a % 100) (natRepr_ne_nil _) (natRepr_bounds _)
    (parseNat_natRepr _) (parseNat_pad2 _ (Nat.mod_lt _ (by norm_num)))]
  rw [hlen]
  congr 1
  have hcast : ((roundHalfEven (v * 100) : ℚ)) = (a : ℚ) := by
    rw [ha, Int.cast_natAbs, abs_of_nonneg (by exact_mod_cast h)]
  rw [hcast]
  have hmod : 100 * (a / 100) + a % 100 = a := Nat.div_add_mod a 100
  have hq : (100 : ℚ) * ((a / 100 : ℕ) : ℚ) + ((a % 100 : ℕ) : ℚ) = (a : ℚ) := by
    exact_mod_cast congrArg (fun z : ℕ => (z : ℚ)) hmod
  field_simp
  linarith [hq]

theorem assocFind?_assocSet (out : List (PyVal × PyVal)) (k v k2 : PyVal) :
    assocFind? (assocSet out k v) k2 = if k = k2 then some v else assocFind? out k2 := by
  induction out with
  | nil => simp [assocSet, assocFind?]
  | cons p rest ih =>
    obtain ⟨pk, pv⟩ := p
    by_cases hpk : pk = k
    · subst hpk
      by_cases hk2 : pk = k2
      · simp [assocSet, assocFind?, hk2]
      · simp [assocSet, assocFind?, hk2]
    · by_cases hk2 : pk = k2
      · subst hk2
        have hne : ¬k = pk := fun e => hpk e.symm
        simp [assocSet, assocFind?, hpk, hne]
      · simp [assocSet, assocFind?, hpk, hk2, ih]

theorem normStatsLoop_find (k : PyVal) : ∀ (xs : List PyVal) (out : List (PyVal × PyVal)),
    assocFind? (normStatsLoop out xs) k =
      match lastVal? k xs with
      | some v => some v
      | Option.none => assocFind? out k
  | [], out => by simp [normStatsLoop, lastVal?]
  | pair :: rest, out => by
    rw [normStatsLoop, lastVal?]
    cases hp : pairKV? pair with
    | none =>
      rw [normStatsLoop_find k rest out]
      cases lastVal? k rest <;> simp
    | some kv =>
      obtain ⟨k2, v⟩ := kv
      rw [normStatsLoop_find k rest (assocSet out k2 v)]
      cases lastVal? k rest with
      | some w => simp
      | none =>
        rw [assocFind?_assocSet]
        by_cases he : k2 = k
        · subst he; simp
        · simp [he]

theorem firstListUnder_eq_head (m : List (String × PyVal)) : ∀ ks : List String,
    firstListUnder m ks
      = (ks.filterMap (fun k =>
          match dictFind? m k with
          | some (.list xs) => some xs
          | _ => Option.none)).head?
  | [] => rfl
  | k :: ks => by
    rw [firstListUnder, List.filterMap_cons]
    cases hf : dictFind? m k with
    | none => exact firstListUnder_eq_head m ks
    | some v =>
      cases v <;>
        first
        | rfl
        | exact firstListUnder_eq_head m ks

theorem sortLE_trans (k : SortKey) (a b c : SRow) (h1 : sortLE k a b) (h2 : sortLE k b c) :
    sortLE k a c := by
  cases hA : sortAscending k <;> simp [sortLE, hA] at h1 h2 ⊢
  · exact le_trans h2 h1
  · exact le_trans h1 h2

theorem sortLE_total (k : SortKey) (a b : SRow) : sortLE k a b || sortLE k b a := by
  cases hA : sortAscending k <;> simp [sortLE, hA] <;> exact le_total _ _

theorem mergeSort_filter_stable {α : Type} (le : α → α → Bool) (p : α → Bool)
    (l : List α)
    (htrans : ∀ a b c, le a b → le b c → le a c)
    (htotal : ∀ a b, le a b || le b a)
    (hp : ∀ a b, p a → p b → le a b) :
    (l.mergeSort le).filter p = l.filter p := by
  have hpair : (l.filter p).Pairwise (fun a b => le a b = true) :=
    List.pairwise_of_forall_mem_list (fun a ha b hb =>
      hp a b (List.of_mem_filter ha) (List.of_mem_filter hb))
  have hsub : List.Sublist (l.filter p) (l.mergeSort le) :=
    List.sublist_mergeSort htrans htotal hpair (List.filter_sublist l)
  have hsub2 : List.Sublist (l.filter p) ((l.mergeSort le).filter p) := by
    have := hsub.filter p
    rwa [List.filter_filter, show (fun a => p a && p a) = p from funext fun a => Bool.and_self _]
      at this
  have hlen : ((l.mergeSort le).filter p).length = (l.filter p).length :=
    ((List.mergeSort_perm l le).filter p).length_eq
  exact (hsub2.eq_of_length hlen.symm).symm

theorem roundHalfEven_intCast (n : ℤ) : roundHalfEven (n : ℚ) = n := by
  have h1 : ((n : ℚ) - (⌊(n : ℚ)⌋ : ℚ)) = 0 := by simp
  rw [roundHalfEven, h1, if_pos (by norm_num)]
  simp

/-- C1: for every principal, day count, gross APR fraction and commission
fraction (none rejected, even outside the unit interval), the calculator
computes the effective APR as the gross APR netted of commission
multiplicatively, the rewards as principal * effectiveApr * days / 365 in
simple mode and principal * ((1 + effectiveApr / 365) ^ days - 1) in daily
compounding mode, and the total as principal + rewards; it coincides with
the formulas modelled from the spec. -/
theorem C1_reward_projection (principal : ℚ) (days : ℕ) (apr comm : ℚ) (compound : Bool) :
    project principal days apr comm compound = projectSpec principal days apr comm compound
    ∧ (project principal days apr comm compound).1 = apr * (1 - comm)
    ∧ (project principal days apr comm false).2.1
        = principal * (apr * (1 - comm)) * ((days : ℚ) / 365)
    ∧ (project principal days apr comm true).2.1
        = principal * ((1 + apr * (1 - comm) / 365) ^ days - 1)
    ∧ (project principal days apr comm compound).2.2
        = principal + (project principal days apr comm compound).2.1 := by
  refine ⟨rfl, rfl, rfl, rfl, ?_⟩
  rw [project]

/-- C2: with subtraction enabled the adjusted stake equals the raw stake
minus the row's looked-up delegation clipped at zero, hence never
negative, and a missing address contributes zero delegation without error;
with subtraction disabled the adjusted stake is the raw stake unchanged. -/
theorem C2_adjusted_stake (stake : ℤ) (dmap : List (String × ℚ)) (addr : String) :
    stake_adjusted stake (rowDelegation dmap addr) true
        = max ((stake : ℚ) - rowDelegation dmap addr) 0
    ∧ 0 ≤ stake_adjusted stake (rowDelegation dmap addr) true
    ∧ stake_adjusted stake (rowDelegation dmap addr) false = (stake : ℚ)
    ∧ (dmap.lookup (lowerStr addr) = Option.none → rowDelegation dmap addr = 0) := by
  refine ⟨rfl, ?_, rfl, ?_⟩
  · show (0 : ℚ) ≤ max ((stake : ℚ) - rowDelegation dmap addr) 0
    exact le_max_right _ _
  · intro h
    rw [rowDelegation, h]
    rfl

/-- C2 witness: a concrete row with a matching delegation entry and one
with an address missing from the mapping. -/
theorem C2_adjusted_stake_witness :
    0 ≤ stake_adjusted 100 (rowDelegation [("0xab", 30)] "0xAB") true
    ∧ rowDelegation [] "0xAB" = 0
    ∧ stake_adjusted 100 (rowDelegation [("0xab", 30)] "0xAB") false = 100 := by
  refine ⟨(C2_adjusted_stake 100 [("0xab", 30)] "0xAB").2.1, ?_, ?_⟩
  · exact (C2_adjusted_stake 100 [] "0xAB").2.2.2 (by decide)
  · exact (C2_adjusted_stake 100 [("0xab", 30)] "0xAB").2.2.1

/-- C3 counterexample: a commission or stake value coercible to neither
number nor integer makes the normalization raise (modelled as none)
instead of defaulting to zero, so the claim fails on the code. -/
theorem C3_counterexample :
    commission_raw? [("commission", .str "abc")] = Option.none
    ∧ ¬commission_raw? [("commission", .str "abc")] = some 0
    ∧ stakeField? [("stake", .str "abc")] = Option.none
    ∧ ¬stakeField? [("stake", .str "abc")] = some 0
    ∧ nRecentBlocksField? [("nRecentBlocks", .none)] = Option.none := by
  refine ⟨rfl, by decide, rfl, by decide, rfl⟩

/-- C3 amended: normalization of commission, stake and nRecentBlocks
tolerates numeric-as-string input and defaults to zero when the key is
missing, but a present value coercible to neither number nor integer makes
the coercion raise (return no value) rather than fall back to a default. -/
theorem C3_coercion_amended (v : List (String × PyVal)) :
    (∀ q : ℚ, dictFind? v "commission" = some (.float q) → commission_raw? v = some q)
    ∧ (∀ s : String, dictFind? v "commission" = some (.str s) →
        commission_raw? v = parseFloat? s)
    ∧ (∀ s : String, dictFind? v "stake" = some (.str s) →
        stakeField? v = parseIntLit? s)
    ∧ (dictFind? v "commission" = Option.none → commission_raw? v = some 0)
    ∧ (dictFind? v "stake" = Option.none → stakeField? v = some 0)
    ∧ (dictFind? v "nRecentBlocks" = Option.none → nRecentBlocksField? v = some 0)
    ∧ (∀ x : PyVal, dictFind? v "commission" = some x → pyFloat? x = Option.none →
        commission_raw? v = Option.none)
    ∧ (∀ x : PyVal, dictFind? v "stake" = some x → pyInt? x = Option.none →
        stakeField? v = Option.none) := by
  refine ⟨?_, ?_, ?_, ?_, ?_, ?_, ?_, ?_⟩
  · intro q h; rw [commission_raw?, dictGetD, h]; rfl
  · intro s h; rw [commission_raw?, dictGetD, h]; rfl
  · intro s h; rw [stakeField?, dictGetD, h]; rfl
  · intro h; rw [commission_raw?, dictGetD, h]; rfl
  · intro h; rw [stakeField?, dictGetD, h]; rfl
  · intro h; rw [nRecentBlocksField?, dictGetD, h]; rfl
  · intro x h hx; rw [commission_raw?, dictGetD, h]; exact hx
  · intro x h hx; rw [stakeField?, dictGetD, h]; exact hx

/-- C3 witness: the amended behavior at concrete records, a numeric string
commission, a missing commission key and a missing stake key. -/
theorem C3_coercion_witness :
    commission_raw? [("commission", .str "0.05")] = some (1 / 20)
    ∧ commission_raw? [("name", .str "x")] = some 0
    ∧ stakeField? [("name", .str "x")] = some 0 := by
  refine ⟨?_, ?_, ?_⟩
  · rw [(C3_coercion_amended [("commission", .str "0.05")]).2.1 "0.05" (by decide)]
    decide
  · exact (C3_coercion_amended [("name", .str "x")]).2.2.2.1 (by decide)
  · exact (C3_coercion_amended [("name", .str "x")]).2.2.2.2.1 (by decide)

/-- C9: re-running the view pipeline on the same base collection with the
active-state filter set back to all returns the base rows unchanged in
count and order, and the activeOnly filter only ever produces a sublist of
(never mutates) the base collection. -/
theorem C9_filter_roundtrip (base : List SRow) :
    applyActiveFilter ActiveFilter.all base = base
    ∧ (applyActiveFilter ActiveFilter.all base).length = base.length
    ∧ List.Sublist (applyActiveFilter ActiveFilter.onlyActive base) base := by
  exact ⟨rfl, rfl, List.filter_sublist base⟩

/-- C6: the withdrawal normalizer returns the list found either as a bare
list or under the first of the keys withdrawals, items, pending, rows,
pendingWithdrawals whose value is a list (a present key with a non-list
value does not stop the search); a raised fetch or an unrecognized shape
yields None, and the concrete cases show None is distinct from the empty
list result. -/
theorem C6_pending_withdrawals (m : List (String × PyVal)) (xs : List PyVal) :
    fetch_pending_withdrawals Option.none = Option.none
    ∧ fetch_pending_withdrawals (some (.list xs)) = some xs
    ∧ fetch_pending_withdrawals (some (.dict m))
        = (withdrawKeys.filterMap (fun k =>
            match dictFind? m k with
            | some (.list ys) => some ys
            | _ => Option.none)).head?
    ∧ (∀ s : String, fetch_pending_withdrawals (some (.str s)) = Option.none)
    ∧ fetch_pending_withdrawals (some (.dict [("withdrawals", .list [])])) = some []
    ∧ ¬fetch_pending_withdrawals (some (.dict [("unknownKey", .list [])])) = some [] := by
  refine ⟨rfl, rfl, ?_, fun s => rfl, by decide, by decide⟩
  exact firstListUnder_eq_head m withdrawKeys

/-- C7 counterexample: a present first alias with a falsy value (amount
zero) is skipped in favor of a later alias, so resolution is not by first
key present as claimed. -/
theorem C7_counterexample :
    amtResolved [("amount", .int 0), ("wei", .int 5)] = .int 5
    ∧ ¬amtResolved [("amount", .int 0), ("wei", .int 5)] = .int 0
    ∧ firstPresent [("amount", .int 0), ("wei", .int 5)] ["amount", "wei", "value", "qty"]
        = some (.int 0)
    ∧ amountCell [("amount", .int 0), ("wei", .int 5)] = .float 5 := by
  decide

/-- C7 amended: each output field resolves to the first truthy value among
its aliases (a falsy present value such as amount zero is skipped, and if
every alias is falsy or missing the chain yields the last alias's value);
a numeric coercion failure for amount falls back to the raw string
representation instead of dropping the item. -/
theorem C7_alias_resolution (item : List (String × PyVal)) :
    amtResolved item = firstTruthy item ["amount", "wei", "value", "qty"]
    ∧ reqResolved item = firstTruthy item ["requestedAt", "time", "requested", "createdAt"]
    ∧ eliResolved item = firstTruthy item ["eligibleAt", "unlockAt", "availableAt"]
    ∧ txhResolved item = firstTruthy item ["txHash", "hash", "tx"]
    ∧ (pyFloat? (amtResolved item) = Option.none →
        amountCell item = .str (pyStr (amtResolved item)))
    ∧ (∀ q : ℚ, pyFloat? (amtResolved item) = some q → amountCell item = .float q) := by
  refine ⟨rfl, rfl, rfl, rfl, ?_, ?_⟩
  · intro h; rw [amountCell, h]
  · intro q h; rw [amountCell, h]

/-- C7 witness: the amended behavior at concrete items, a truthy string
amount resolved through an alias and a non-numeric amount falling back to
its string form. -/
theorem C7_alias_witness :
    amtResolved [("wei", .str "5000")]
      = firstTruthy [("wei", .str "5000")] ["amount", "wei", "value", "qty"]
    ∧ amountCell [("amount", .str "abc")] = .str "abc"
    ∧ amountCell [("wei", .str "5000")] = .float 5000 := by
  refine ⟨(C7_alias_resolution [("wei", .str "5000")]).1, ?_, ?_⟩
  · rw [(C7_alias_resolution [("amount", .str "abc")]).2.2.2.2.1 (by decide)]
    decide
  · rw [(C7_alias_resolution [("wei", .str "5000")]).2.2.2.2.2 5000 (by decide)]

/-- C10 counterexample: the stats value "5%" is not float-coercible, its
display passes through unchanged, yet the numeric helper parses the
percent-stripped string to five rather than NaN, so the claim's
conclusion fails on the code. -/
theorem C10_counterexample :
    pyFloat? (.str "5%") = Option.none
    ∧ fmt_pct (.str "5%") = "5%"
    ∧ pct_to_float_0_100 (fmt_pct (.str "5%")) = some 5
    ∧ ¬pct_to_float_0_100 (fmt_pct (.str "5%")) = Option.none := by
  decide

/-- C10 amended: the percent helpers are total functions of the embedding;
fmt_pct returns str(x) unchanged whenever float conversion fails, and
pct_to_float_0_100 returns NaN exactly when the percent-stripped string
fails to parse; hence a non-coercible stats value yields a pass-through
display string, and its numeric field is NaN unless stripping percent
signs from that display makes it numeric, in which case the parsed value
is produced instead. -/
theorem C10_percent_helpers (x : PyVal) (s : String)
    (hx : pyFloat? x = Option.none)
    (hs : parseFloat? (stripPercent s) = Option.none) :
    fmt_pct x = pyStr x
    ∧ pct_to_float_0_100 s = Option.none
    ∧ pct_to_float_0_100 (fmt_pct x) = parseFloat? (stripPercent (pyStr x)) := by
  refine ⟨?_, ?_, ?_⟩
  · rw [fmt_pct, hx]
  · rw [pct_to_float_0_100, hs]
  · rw [pct_to_float_0_100, fmt_pct, hx]

/-- C10 witness: the amended behavior at a concrete non-coercible value
whose stripped form is still not numeric. -/
theorem C10_percent_witness :
    fmt_pct (.str "abc") = "abc"
    ∧ pct_to_float_0_100 "abc" = Option.none := by
  have h := C10_percent_helpers (.str "abc") "abc" (by decide) (by decide)
  exact ⟨h.1, h.2.1⟩

/-- C4 counterexample: for the source fraction 0.001234 the stored numeric
column holds 0.12, the value of the two-decimal display, not fraction
times one hundred (0.1234), so the claimed exact equality fails on the
code. -/
theorem C4_counterexample :
    uptimeNumField [("uptimeFraction", .float (1234 / 1000000))] = some (12 / 100)
    ∧ ¬uptimeNumField [("uptimeFraction", .float (1234 / 1000000))]
        = some ((1234 / 1000000 : ℚ) * 100)
    ∧ uptimeStrField [("uptimeFraction", .float (1234 / 1000000))] = "0.12%" := by
  decide

/-- C4 amended: for a nonnegative fraction source, the display string is
fraction times one hundred formatted to two decimals plus a percent sign,
the numeric column is the value of that display (the half-even two-decimal
rounding of fraction times one hundred), and the string equals the numeric
reformatted, so string and numeric stay mutually consistent; the numeric
equals fraction times one hundred only up to that rounding, and commission
keeps its 0-1 fraction in commission_raw rather than a 0-100 numeric. -/
theorem C4_percent_consistency (f : ℚ) (hf : 0 ≤ f) :
    uptimeStrField [("uptimeFraction", .float f)] = fmtFixed2 (f * 100) ++ "%"
    ∧ uptimeNumField [("uptimeFraction", .float f)]
        = some ((roundHalfEven (f * 100 * 100) : ℚ) / 100)
    ∧ uptimeStrField [("uptimeFraction", .float f)]
        = fmtFixed2 ((roundHalfEven (f * 100 * 100) : ℚ) / 100) ++ "%"
    ∧ aprNumField [("predictedApr", .float f)]
        = some ((roundHalfEven (f * 100 * 100) : ℚ) / 100)
    ∧ aprStrField [("predictedApr", .float f)] = fmtFixed2 (f * 100) ++ "%" := by
  have hnn : (0 : ℚ) ≤ f * 100 * 100 :=
    mul_nonneg (mul_nonneg hf (by norm_num)) (by norm_num)
  have hr := roundHalfEven_nonneg _ hnn
  have hnum : pct_to_float_0_100 (fmt_pct (.float f))
      = some ((roundHalfEven (f * 100 * 100) : ℚ) / 100) := by
    have h1 : fmt_pct (.float f) = fmtFixed2 (f * 100) ++ "%" := rfl
    rw [pct_to_float_0_100, h1, stripPercent_append_pct _ (fmtFixed2_no_pct _)]
    exact parseFloat_fmtFixed2 (f * 100) hr
  have hfmt : fmtFixed2 ((roundHalfEven (f * 100 * 100) : ℚ) / 100) = fmtFixed2 (f * 100) := by
    have hx : ((roundHalfEven (f * 100 * 100) : ℚ) / 100 * 100)
        = (roundHalfEven (f * 100 * 100) : ℚ) := by field_simp
    rw [fmtFixed2, fmtFixed2, hx, roundHalfEven_intCast]
  refine ⟨rfl, hnum, ?_, hnum, rfl⟩
  rw [hfmt]
  exact rfl

/-- C4 witness: the amended consistency at the concrete fraction one
eighth, whose percentage 12.5 is exactly representable in two decimals. -/
theorem C4_percent_witness :
    uptimeStrField [("uptimeFraction", .float (1 / 8))] = fmtFixed2 (1 / 8 * 100) ++ "%"
    ∧ uptimeNumField [("uptimeFraction", .float (1 / 8))]
        = some ((roundHalfEven (1 / 8 * 100 * 100) : ℚ) / 100) := by
  have h := C4_percent_consistency (1 / 8) (by norm_num)
  exact ⟨h.1, h.2.1⟩

/-- C5 counterexample: a mapping-shaped stats field is not accepted: it
linearizes to the empty mapping, so the per-window lookup differs from the
lookup produced by the equivalent list-of-pairs representation. -/
theorem C5_counterexample :
    norm_stats (.dict [("day", .dict [("uptimeFraction", .float 1)])]) = []
    ∧ norm_stats (.list [.list [.str "day", .dict [("uptimeFraction", .float 1)]]])
        = [(.str "day", .dict [("uptimeFraction", .float 1)])]
    ∧ ¬windowLookup (.dict [("day", .dict [("uptimeFraction", .float 1)])]) "day"
        = windowLookup (.list [.list [.str "day", .dict [("uptimeFraction", .float 1)]]])
            "day" := by
  decide

/-- C5 amended: only the list-of-pairs representation is linearized into
the per-window mapping, with last-value-wins on duplicate keys; a
mapping-shaped (or any non-list) stats field yields the empty mapping, so
every window lookup falls back to its default. -/
theorem C5_norm_stats (xs : List PyVal) (m : List (String × PyVal)) (k : PyVal)
    (w : String) :
    assocFind? (norm_stats (.list xs)) k = lastVal? k xs
    ∧ norm_stats (.dict m) = []
    ∧ windowLookup (.list xs) w = (lastVal? (.str w) xs).getD (.dict [])
    ∧ windowLookup (.dict m) w = .dict [] := by
  have hgen : ∀ k2 : PyVal, assocFind? (norm_stats (.list xs)) k2 = lastVal? k2 xs := by
    intro k2
    rw [norm_stats, normStatsLoop_find]
    cases lastVal? k2 xs <;> rfl
  refine ⟨hgen k, rfl, ?_, rfl⟩
  rw [windowLookup, hgen (.str w)]

/-- C8: for every sort key, the view sort is a permutation of the input
rows, sorted on the key's mapped numeric column in its default direction
(ascending exactly for commission, descending otherwise, stake sorting on
the adjusted stake column), and stable: for each column value, the rows
holding it appear in the output in their original input order. -/
theorem C8_sort_stable (k : SortKey) (rows : List SRow) :
    List.Perm (sortView k rows) rows
    ∧ (sortView k rows).Pairwise (fun a b =>
        if sortAscending k = true then sortField k a ≤ sortField k b
        else sortField k b ≤ sortField k a)
    ∧ (∀ c : ℚ, (sortView k rows).filter (fun r => decide (sortField k r = c))
        = rows.filter (fun r => decide (sortField k r = c)))
    ∧ sortAscending k = decide (k = SortKey.commission)
    ∧ sortField SortKey.stake = (fun r => r.stake_display)
    ∧ sortField SortKey.commission = (fun r => r.commission_raw)
    ∧ sortField SortKey.nRecentBlocks = (fun r => (r.nRecentBlocks : ℚ))
    ∧ sortField SortKey.apr_week = (fun r => r.apr_week_num)
    ∧ sortField SortKey.uptime_week = (fun r => r.uptime_week_num) := by
  refine ⟨List.mergeSort_perm rows (sortLE k), ?_, ?_, by cases k <;> rfl, rfl, rfl, rfl,
    rfl, rfl⟩
  · have hs : (rows.mergeSort (sortLE k)).Pairwise (fun a b => sortLE k a b = true) :=
      List.sorted_mergeSort (fun a b c => sortLE_trans k a b c)
        (fun a b => sortLE_total k a b) rows
    refine hs.imp ?_
    intro a b h
    by_cases hA : sortAscending k = true
    · rw [if_pos hA]
      rw [sortLE, if_pos hA] at h
      exact of_decide_eq_true h
    · rw [if_neg hA]
      rw [sortLE, if_neg hA] at h
      exact of_decide_eq_true h
  · intro c
    refine mergeSort_filter_stable (sortLE k) _ rows (fun a b c2 => sortLE_trans k a b c2)
      (fun a b => sortLE_total k a b) ?_
    intro a b ha hb
    have ha2 : sortField k a = c := of_decide_eq_true ha
    have hb2 : sortField k b = c := of_decide_eq_true hb
    rw [sortLE]
    split
    · exact decide_eq_true (by rw [ha2, hb2])
    · exact decide_eq_true (by rw [ha2, hb2])
